import Mathlib

/-!
Shallow embedding of the time-range extraction and normalization core of
the Subtitle-Driven AI Clipper (source file 4o-1.py).

The embedded pieces are:
  * hms_to_sec              (4o-1.py lines 342-354)
  * the regex scan          re.findall over the pattern
                            (\d{2}:\d{2}:\d{2}\.\d{3})\s*-\s*(\d{2}:\d{2}:\d{2}\.\d{3})
                            (line 574)
  * the sort / buffer / merge / filter pipeline of process_with_llm
                            (lines 581-612)

Seconds are represented by ℚ (the source uses Python floats; every claim is
about order and field arithmetic, not rounding).  Strings are List Char.
The regex classes \d and \s are modelled on the ASCII alphabet, which covers
every character the surrounding program feeds into this core.
-/

namespace Clipper

/-- The regex class \s, restricted to ASCII whitespace. -/
def isWS (c : Char) : Bool :=
  c = ' ' || c = '\t' || c = '\n' || c = '\r' || c = Char.ofNat 11 || c = Char.ofNat 12

/-- Python str.split with a one-character separator: n occurrences of the
separator yield n+1 fields, empty fields included. -/
def pySplit (sep : Char) : List Char → List (List Char)
  | [] => [[]]
  | c :: rest =>
    if c = sep then
      [] :: pySplit sep rest
    else
      match pySplit sep rest with
      | [] => [[c]]
      | f :: fs => (c :: f) :: fs

/-- Value of a string of ASCII digits read in base 10. -/
def digitsValN (l : List Char) : ℕ :=
  l.foldl (fun acc c => 10 * acc + (c.toNat - 48)) 0

/-- Lexical part of Python float() on the numeral subset reachable in this
program: an optional integer part and an optional fractional part separated by
one dot, at least one digit in total, all characters ASCII digits.  Returns the
digit strings of the two parts (the fractional part empty when absent).
Signs, exponents, surrounding whitespace, underscores and inf/nan are not
modelled; the only call site feeds this function fields split out of
regex-matched digit strings. -/
def pyFloatParts (l : List Char) : Option (List Char × List Char) :=
  let intPart := l.takeWhile Char.isDigit
  let rest := l.dropWhile Char.isDigit
  match rest with
  | [] => if intPart.isEmpty then none else some (intPart, [])
  | '.' :: frac =>
    if frac.all Char.isDigit && !(intPart.isEmpty && frac.isEmpty) then
      some (intPart, frac)
    else none
  | _ => none

/-- Value of Python float() on the recognized numerals: integer part plus
fractional part scaled by its number of digits (zero when absent, since the
empty digit string has value 0). -/
def pyFloat (l : List Char) : Option ℚ :=
  match pyFloatParts l with
  | some (intPart, frac) =>
    some ((digitsValN intPart : ℚ) + (digitsValN frac : ℚ) / (10 : ℚ) ^ frac.length)
  | none => none

/-- Field extraction of hms_to_sec (4o-1.py lines 344-349): append ".000" when
no dot is present, split into exactly three colon fields, split the last into
exactly two dot fields.  A wrong field count yields none, mirroring the
ValueError raised by the destructuring assignments. -/
def hmsFields (hms : List Char) : Option (List Char × List Char × List Char × List Char) :=
  let hms2 := if '.' ∈ hms then hms else hms ++ ['.', '0', '0', '0']
  match pySplit ':' hms2 with
  | [h, m, s_m] =>
    match pySplit '.' s_m with
    | [s, mmm] => some (h, m, s, mmm)
    | _ => none
  | _ => none

/-- The body of the try block of hms_to_sec (4o-1.py lines 344-350): extract
the four fields and convert them numerically.  Any failure (wrong field count
or a non-numeric field) yields none, mirroring the ValueError paths. -/
def hmsToSecE (hms : List Char) : Option ℚ :=
  match hmsFields hms with
  | some (h, m, s, mmm) =>
    match pyFloat h, pyFloat m, pyFloat s, pyFloat mmm with
    | some qh, some qm, some qs, some qmmm =>
      some (qh * 3600 + qm * 60 + qs + qmmm / 1000)
    | _, _, _, _ => none
  | none => none

/-- hms_to_sec (4o-1.py lines 342-354): the try body, with every ValueError
caught, logged, and turned into the value 0.0. -/
def hms_to_sec (hms : List Char) : ℚ :=
  (hmsToSecE hms).getD 0

/-- One timestamp of the lexical shape \d{2}:\d{2}:\d{2}\.\d{3}: on success,
returns the twelve matched characters and the remainder of the input. -/
def matchTs : List Char → Option (List Char × List Char)
  | h1 :: h2 :: ':' :: m1 :: m2 :: ':' :: s1 :: s2 :: '.' :: f1 :: f2 :: f3 :: rest =>
    if h1.isDigit && h2.isDigit && m1.isDigit && m2.isDigit &&
       s1.isDigit && s2.isDigit && f1.isDigit && f2.isDigit && f3.isDigit then
      some ([h1, h2, ':', m1, m2, ':', s1, s2, '.', f1, f2, f3], rest)
    else none
  | _ => none

/-- One match of the full pattern ts\s*-\s*ts starting at the head of the
input: the two captured timestamp strings and the remainder.  The greedy \s*
runs never need backtracking because they are followed by a dash and a digit
respectively, neither of which is whitespace. -/
def matchRange (l : List Char) : Option ((List Char × List Char) × List Char) :=
  match matchTs l with
  | none => none
  | some (t1, r1) =>
    match r1.dropWhile isWS with
    | '-' :: r3 =>
      match matchTs (r3.dropWhile isWS) with
      | none => none
      | some (t2, r5) => some ((t1, t2), r5)
    | _ => none

/-- Left-to-right non-overlapping scan of re.findall: try the pattern at each
position, emit the captures and resume after the match, otherwise slide one
character.  Each successful match consumes at least one character, so an
initial fuel of the input length is never exhausted. -/
def findRangesAux : ℕ → List Char → List (List Char × List Char)
  | 0, _ => []
  | _ + 1, [] => []
  | fuel + 1, c :: rest =>
    match matchRange (c :: rest) with
    | some (p, r) => p :: findRangesAux fuel r
    | none => findRangesAux fuel rest

/-- re.findall of the timestamp-range pattern over the reply text
(4o-1.py line 574). -/
def findRanges (l : List Char) : List (List Char × List Char) :=
  findRangesAux l.length l

/-- sorted(matches, key=lambda x: hms_to_sec(x[0])) (4o-1.py line 582);
List.mergeSort is stable, like Python's sort, so the results agree. -/
def sortMatches (ms : List (List Char × List Char)) : List (List Char × List Char) :=
  ms.mergeSort (fun a b => decide (hms_to_sec a.1 ≤ hms_to_sec b.1))

/-- The buffering loop (4o-1.py lines 584-590): clamp the start at 0, pad both
edges by buffer_time, and keep the pair only when the buffered end is strictly
after the buffered start. -/
def buildBuffered (buffer_time : ℚ) (ms : List (List Char × List Char)) : List (ℚ × ℚ) :=
  ms.filterMap (fun m =>
    let s := max 0 (hms_to_sec m.1 - buffer_time)
    let e := hms_to_sec m.2 + buffer_time
    if s < e then some (s, e) else none)

/-- sorted(buffered_ranges, key=lambda x: x[0]) (4o-1.py line 593). -/
def sortRanges (l : List (ℚ × ℚ)) : List (ℚ × ℚ) :=
  l.mergeSort (fun a b => decide (a.1 ≤ b.1))

/-- One iteration of the merge loop (4o-1.py lines 597-603): append (s, e) when
the output is empty or s is beyond the last end plus the merge gap, otherwise
extend the last range's end to the max of the two ends. -/
def mergeStep (merge_gap : ℚ) (acc : List (ℚ × ℚ)) (r : ℚ × ℚ) : List (ℚ × ℚ) :=
  match acc.getLast? with
  | none => acc ++ [r]
  | some last =>
    if last.2 + merge_gap < r.1 then
      acc ++ [r]
    else
      acc.dropLast ++ [(last.1, max last.2 r.2)]

/-- The merge loop over the whole buffered list (4o-1.py lines 595-603).
The source pins merge_gap to the constant 0.5; it is a parameter here, as
everywhere below, matching the local variable it is read from. -/
def mergeRanges (merge_gap : ℚ) (l : List (ℚ × ℚ)) : List (ℚ × ℚ) :=
  l.foldl (mergeStep merge_gap) []

/-- The minimum-duration filter (4o-1.py line 607). -/
def filterRanges (min_duration : ℚ) (l : List (ℚ × ℚ)) : List (ℚ × ℚ) :=
  l.filter (fun r => decide (min_duration ≤ r.2 - r.1))

/-- The sort / merge / filter suffix of the pipeline (4o-1.py lines 593-607),
acting on an arbitrary list of ranges in seconds. -/
def rangePipeline (merge_gap min_duration : ℚ) (l : List (ℚ × ℚ)) : List (ℚ × ℚ) :=
  filterRanges min_duration (mergeRanges merge_gap (sortRanges l))

/-- The range list produced by the pipeline of process_with_llm
(4o-1.py lines 574-607): parse, sort by start timestamp, buffer, re-sort,
merge, filter. -/
def finalClipRanges (reply : List Char) (buffer_time merge_gap min_duration : ℚ) :
    List (ℚ × ℚ) :=
  rangePipeline merge_gap min_duration
    (buildBuffered buffer_time (sortMatches (findRanges reply)))

/-- The caller-visible outcomes of the core: the two distinct warning paths
(4o-1.py lines 576-579 and 609-612) and the success path that hands the clip
list to clip_videos (line 619). -/
inductive ProcessOutcome where
  | noMatchesFound : ProcessOutcome
  | emptyAfterNormalization : ProcessOutcome
  | clips : List (ℚ × ℚ) → ProcessOutcome
  deriving DecidableEq, Repr

/-- process_with_llm restricted to its pure core (4o-1.py lines 574-619):
no matches at all is reported as noMatchesFound; matches that all die in
merge+filter are reported as emptyAfterNormalization; otherwise the final
ranges are produced. -/
def process_with_llm (reply : List Char) (buffer_time merge_gap min_duration : ℚ) :
    ProcessOutcome :=
  if findRanges reply = [] then
    ProcessOutcome.noMatchesFound
  else
    let final := finalClipRanges reply buffer_time merge_gap min_duration
    if final = [] then
      ProcessOutcome.emptyAfterNormalization
    else
      ProcessOutcome.clips final

/-! ### Lemmas about the string-level helpers -/

lemma pySplit_no_sep {sep : Char} {l : List Char} (h : ∀ c ∈ l, c ≠ sep) :
    pySplit sep l = [l] := by
  induction l with
  | nil => rfl
  | cons c rest ih =>
    have hc : c ≠ sep := h c (List.mem_cons_self c rest)
    have hrest := ih (fun x hx => h x (List.mem_cons_of_mem c hx))
    simp [pySplit, hc, hrest]

lemma pySplit_append {sep : Char} {l1 l2 : List Char} (h : ∀ c ∈ l1, c ≠ sep) :
    pySplit sep (l1 ++ sep :: l2) = l1 :: pySplit sep l2 := by
  induction l1 with
  | nil => simp [pySplit]
  | cons c rest ih =>
    have hc : c ≠ sep := h c (List.mem_cons_self c rest)
    have hrest := ih (fun x hx => h x (List.mem_cons_of_mem c hx))
    simp [pySplit, hc, hrest]

lemma ne_of_isDigit {c d : Char} (hc : c.isDigit = true) (hd : d.isDigit = false) :
    c ≠ d := by
  intro he
  subst he
  rw [hc] at hd
  simp at hd

lemma pyFloatParts_digits {l : List Char} (hd : ∀ c ∈ l, c.isDigit = true) (hne : l ≠ []) :
    pyFloatParts l = some (l, []) := by
  have ht : l.takeWhile Char.isDigit = l := List.takeWhile_eq_self_iff.mpr hd
  have hw : l.dropWhile Char.isDigit = [] := List.dropWhile_eq_nil_iff.mpr hd
  have hie : l.isEmpty = false := by
    cases l with
    | nil => exact absurd rfl hne
    | cons a as => rfl
  simp [pyFloatParts, ht, hw, hie]

lemma pyFloat_digits {l : List Char} (hd : ∀ c ∈ l, c.isDigit = true) (hne : l ≠ []) :
    pyFloat l = some (digitsValN l : ℚ) := by
  simp [pyFloat, pyFloatParts_digits hd hne, digitsValN]

lemma digitsValN_nil : digitsValN [] = 0 := rfl

lemma digitsValN_pair (a b : Char) :
    digitsValN [a, b] = 10 * (a.toNat - 48) + (b.toNat - 48) := by
  simp [digitsValN, List.foldl]

lemma digitsValN_triple (a b c : Char) :
    digitsValN [a, b, c] = 100 * (a.toNat - 48) + 10 * (b.toNat - 48) + (c.toNat - 48) := by
  simp [digitsValN, List.foldl]
  ring

lemma hms_splits (h1 h2 m1 m2 s1 s2 f1 f2 f3 : Char)
    (d1 : h1.isDigit = true) (d2 : h2.isDigit = true)
    (d3 : m1.isDigit = true) (d4 : m2.isDigit = true)
    (d5 : s1.isDigit = true) (d6 : s2.isDigit = true)
    (d7 : f1.isDigit = true) (d8 : f2.isDigit = true) (d9 : f3.isDigit = true) :
    pySplit ':' [h1, h2, ':', m1, m2, ':', s1, s2, '.', f1, f2, f3] =
      [[h1, h2], [m1, m2], [s1, s2, '.', f1, f2, f3]] ∧
    pySplit '.' [s1, s2, '.', f1, f2, f3] = [[s1, s2], [f1, f2, f3]] := by
  have hcol : (':' : Char).isDigit = false := by decide
  have hdot : ('.' : Char).isDigit = false := by decide
  have hh : ∀ c ∈ [h1, h2], c ≠ ':' := by
    intro c hc
    rcases List.mem_cons.mp hc with rfl | hc
    · exact ne_of_isDigit d1 hcol
    rcases List.mem_cons.mp hc with rfl | hc
    · exact ne_of_isDigit d2 hcol
    exact absurd hc (List.not_mem_nil c)
  have hm : ∀ c ∈ [m1, m2], c ≠ ':' := by
    intro c hc
    rcases List.mem_cons.mp hc with rfl | hc
    · exact ne_of_isDigit d3 hcol
    rcases List.mem_cons.mp hc with rfl | hc
    · exact ne_of_isDigit d4 hcol
    exact absurd hc (List.not_mem_nil c)
  have hs : ∀ c ∈ [s1, s2, '.', f1, f2, f3], c ≠ ':' := by
    intro c hc
    rcases List.mem_cons.mp hc with rfl | hc
    · exact ne_of_isDigit d5 hcol
    rcases List.mem_cons.mp hc with rfl | hc
    · exact ne_of_isDigit d6 hcol
    rcases List.mem_cons.mp hc with rfl | hc
    · decide
    rcases List.mem_cons.mp hc with rfl | hc
    · exact ne_of_isDigit d7 hcol
    rcases List.mem_cons.mp hc with rfl | hc
    · exact ne_of_isDigit d8 hcol
    rcases List.mem_cons.mp hc with rfl | hc
    · exact ne_of_isDigit d9 hcol
    exact absurd hc (List.not_mem_nil c)
  have hsd : ∀ c ∈ [s1, s2], c ≠ '.' := by
    intro c hc
    rcases List.mem_cons.mp hc with rfl | hc
    · exact ne_of_isDigit d5 hdot
    rcases List.mem_cons.mp hc with rfl | hc
    · exact ne_of_isDigit d6 hdot
    exact absurd hc (List.not_mem_nil c)
  have hfd : ∀ c ∈ [f1, f2, f3], c ≠ '.' := by
    intro c hc
    rcases List.mem_cons.mp hc with rfl | hc
    · exact ne_of_isDigit d7 hdot
    rcases List.mem_cons.mp hc with rfl | hc
    · exact ne_of_isDigit d8 hdot
    rcases List.mem_cons.mp hc with rfl | hc
    · exact ne_of_isDigit d9 hdot
    exact absurd hc (List.not_mem_nil c)
  constructor
  · have e1 : [h1, h2, ':', m1, m2, ':', s1, s2, '.', f1, f2, f3] =
        [h1, h2] ++ ':' :: ([m1, m2] ++ ':' :: [s1, s2, '.', f1, f2, f3]) := rfl
    rw [e1, pySplit_append hh, pySplit_append hm, pySplit_no_sep hs]
  · have e2 : [s1, s2, '.', f1, f2, f3] = [s1, s2] ++ '.' :: [f1, f2, f3] := rfl
    rw [e2, pySplit_append hsd, pySplit_no_sep hfd]

lemma hmsFields_pattern (h1 h2 m1 m2 s1 s2 f1 f2 f3 : Char)
    (d1 : h1.isDigit = true) (d2 : h2.isDigit = true)
    (d3 : m1.isDigit = true) (d4 : m2.isDigit = true)
    (d5 : s1.isDigit = true) (d6 : s2.isDigit = true)
    (d7 : f1.isDigit = true) (d8 : f2.isDigit = true) (d9 : f3.isDigit = true) :
    hmsFields [h1, h2, ':', m1, m2, ':', s1, s2, '.', f1, f2, f3] =
      some ([h1, h2], [m1, m2], [s1, s2], [f1, f2, f3]) := by
  obtain ⟨hs1, hs2⟩ := hms_splits h1 h2 m1 m2 s1 s2 f1 f2 f3 d1 d2 d3 d4 d5 d6 d7 d8 d9
  have hmem : ('.' : Char) ∈ [h1, h2, ':', m1, m2, ':', s1, s2, '.', f1, f2, f3] := by
    simp
  simp [hmsFields, hmem, hs1, hs2]

lemma hmsFields_no_dot (h1 h2 m1 m2 s1 s2 : Char)
    (d1 : h1.isDigit = true) (d2 : h2.isDigit = true)
    (d3 : m1.isDigit = true) (d4 : m2.isDigit = true)
    (d5 : s1.isDigit = true) (d6 : s2.isDigit = true) :
    hmsFields [h1, h2, ':', m1, m2, ':', s1, s2] =
      some ([h1, h2], [m1, m2], [s1, s2], ['0', '0', '0']) := by
  have hdot : ('.' : Char).isDigit = false := by decide
  obtain ⟨hs1, hs2⟩ := hms_splits h1 h2 m1 m2 s1 s2 '0' '0' '0' d1 d2 d3 d4 d5 d6
    (by decide) (by decide) (by decide)
  have hmem : ('.' : Char) ∉ [h1, h2, ':', m1, m2, ':', s1, s2] := by
    intro hc
    rcases List.mem_cons.mp hc with he | hc
    · exact ne_of_isDigit d1 hdot he.symm
    rcases List.mem_cons.mp hc with he | hc
    · exact ne_of_isDigit d2 hdot he.symm
    rcases List.mem_cons.mp hc with he | hc
    · exact absurd (congrArg Char.toNat he) (by decide)
    rcases List.mem_cons.mp hc with he | hc
    · exact ne_of_isDigit d3 hdot he.symm
    rcases List.mem_cons.mp hc with he | hc
    · exact ne_of_isDigit d4 hdot he.symm
    rcases List.mem_cons.mp hc with he | hc
    · exact absurd (congrArg Char.toNat he) (by decide)
    rcases List.mem_cons.mp hc with he | hc
    · exact ne_of_isDigit d5 hdot he.symm
    rcases List.mem_cons.mp hc with he | hc
    · exact ne_of_isDigit d6 hdot he.symm
    exact absurd hc (List.not_mem_nil '.')
  have happ : [h1, h2, ':', m1, m2, ':', s1, s2] ++ ['.', '0', '0', '0'] =
      [h1, h2, ':', m1, m2, ':', s1, s2, '.', '0', '0', '0'] := rfl
  simp [hmsFields, hmem, happ, hs1, hs2]

lemma mem_pair_digits {h1 h2 : Char} (d1 : h1.isDigit = true) (d2 : h2.isDigit = true) :
    ∀ c ∈ [h1, h2], c.isDigit = true := by
  intro c hc
  rcases List.mem_cons.mp hc with rfl | hc
  · exact d1
  rcases List.mem_cons.mp hc with rfl | hc
  · exact d2
  simp at hc

lemma mem_triple_digits {f1 f2 f3 : Char} (d1 : f1.isDigit = true) (d2 : f2.isDigit = true)
    (d3 : f3.isDigit = true) : ∀ c ∈ [f1, f2, f3], c.isDigit = true := by
  intro c hc
  rcases List.mem_cons.mp hc with rfl | hc
  · exact d1
  rcases List.mem_cons.mp hc with rfl | hc
  · exact d2
  rcases List.mem_cons.mp hc with rfl | hc
  · exact d3
  simp at hc

/-- Numeric evaluation of hms_to_sec from a computed field split with all-digit
fields and precomputed field values; the workhorse for every concrete
timestamp used in the development. -/
lemma hms_to_sec_eq_num (a b c d : ℕ) {t h m s f : List Char}
    (hf : hmsFields t = some (h, m, s, f))
    (hdh : ∀ x ∈ h, x.isDigit = true) (hdm : ∀ x ∈ m, x.isDigit = true)
    (hds : ∀ x ∈ s, x.isDigit = true) (hdf : ∀ x ∈ f, x.isDigit = true)
    (hneh : h ≠ []) (hnem : m ≠ []) (hnes : s ≠ []) (hnef : f ≠ [])
    (ha : digitsValN h = a) (hb : digitsValN m = b)
    (hc : digitsValN s = c) (hd : digitsValN f = d) :
    hms_to_sec t = (a : ℚ) * 3600 + (b : ℚ) * 60 + (c : ℚ) + (d : ℚ) / 1000 := by
  simp [hms_to_sec, hmsToSecE, hf, pyFloat_digits hdh hneh, pyFloat_digits hdm hnem,
    pyFloat_digits hds hnes, pyFloat_digits hdf hnef, ha, hb, hc, hd]

/-! ### Lemmas about the merge loop -/

/-- Exhaustive description of one merge iteration: on an empty accumulator the
range is appended; otherwise the branch is decided by comparing the new start
against the last end plus the gap. -/
lemma mergeStep_eq (g : ℚ) (acc : List (ℚ × ℚ)) (r : ℚ × ℚ) :
    (acc = [] ∧ mergeStep g acc r = [r]) ∨
    (∃ ys last, acc = ys ++ [last] ∧
      ((last.2 + g < r.1 ∧ mergeStep g acc r = acc ++ [r]) ∨
       (¬ last.2 + g < r.1 ∧ mergeStep g acc r = ys ++ [(last.1, max last.2 r.2)]))) := by
  cases hl : acc.getLast? with
  | none =>
    left
    have ha : acc = [] := List.getLast?_eq_none_iff.mp hl
    subst ha
    exact ⟨rfl, by simp [mergeStep]⟩
  | some last =>
    right
    obtain ⟨ys, rfl⟩ := List.getLast?_eq_some_iff.mp hl
    refine ⟨ys, last, rfl, ?_⟩
    by_cases hcond : last.2 + g < r.1
    · exact Or.inl ⟨hcond, by simp [mergeStep, List.getLast?_concat, hcond]⟩
    · exact Or.inr ⟨hcond, by simp [mergeStep, List.getLast?_concat, hcond]⟩

lemma mergeStep_ends {g : ℚ} {acc : List (ℚ × ℚ)} {r : ℚ × ℚ}
    (hacc : ∀ x ∈ acc, x.1 < x.2) (hr : r.1 < r.2) :
    ∀ x ∈ mergeStep g acc r, x.1 < x.2 := by
  rcases mergeStep_eq g acc r with ⟨ha, heq⟩ | ⟨ys, last, ha, ⟨hcond, heq⟩ | ⟨hcond, heq⟩⟩ <;>
      subst ha <;> rw [heq] <;> intro x hx
  · rcases List.mem_singleton.mp hx with rfl
    exact hr
  · rcases List.mem_append.mp hx with hy | hy
    · exact hacc x hy
    · rcases List.mem_singleton.mp hy with rfl
      exact hr
  · rcases List.mem_append.mp hx with hy | hy
    · exact hacc x (List.mem_append_left _ hy)
    · rcases List.mem_singleton.mp hy with rfl
      have hlast : last.1 < last.2 := hacc last (List.mem_append_right _ (List.mem_singleton_self _))
      exact lt_of_lt_of_le hlast (le_max_left _ _)

lemma mergeStep_fst {g : ℚ} {acc : List (ℚ × ℚ)} {r : ℚ × ℚ} {Q : ℚ → Prop}
    (hacc : ∀ x ∈ acc, Q x.1) (hr : Q r.1) :
    ∀ x ∈ mergeStep g acc r, Q x.1 := by
  rcases mergeStep_eq g acc r with ⟨ha, heq⟩ | ⟨ys, last, ha, ⟨hcond, heq⟩ | ⟨hcond, heq⟩⟩ <;>
      subst ha <;> rw [heq] <;> intro x hx
  · rcases List.mem_singleton.mp hx with rfl
    exact hr
  · rcases List.mem_append.mp hx with hy | hy
    · exact hacc x hy
    · rcases List.mem_singleton.mp hy with rfl
      exact hr
  · rcases List.mem_append.mp hx with hy | hy
    · exact hacc x (List.mem_append_left _ hy)
    · rcases List.mem_singleton.mp hy with rfl
      exact hacc last (List.mem_append_right _ (List.mem_singleton_self _))

lemma mergeStep_pairwise {g : ℚ} {acc : List (ℚ × ℚ)} {r : ℚ × ℚ} (hg : 0 ≤ g)
    (hpw : acc.Pairwise (fun a b => a.2 + g < b.1))
    (hacc : ∀ x ∈ acc, x.1 < x.2) (hr : r.1 < r.2) :
    (mergeStep g acc r).Pairwise (fun a b => a.2 + g < b.1) := by
  rcases mergeStep_eq g acc r with ⟨ha, heq⟩ | ⟨ys, last, ha, ⟨hcond, heq⟩ | ⟨hcond, heq⟩⟩ <;>
      subst ha <;> rw [heq]
  · exact List.pairwise_singleton _ _
  · rw [List.pairwise_append]
    refine ⟨hpw, List.pairwise_singleton _ _, ?_⟩
    intro a ha hb hbmem
    rcases List.mem_singleton.mp hbmem with rfl
    rcases List.mem_append.mp ha with hy | hy
    · have hrel : a.2 + g < last.1 :=
        (List.pairwise_append.mp hpw).2.2 a hy last (List.mem_singleton_self _)
      have hend : last.1 < last.2 := hacc last (List.mem_append_right _ (List.mem_singleton_self _))
      linarith
    · rcases List.mem_singleton.mp hy with rfl
      exact hcond
  · rw [List.pairwise_append]
    have hparts := List.pairwise_append.mp hpw
    refine ⟨hparts.1, List.pairwise_singleton _ _, ?_⟩
    intro a ha hb hbmem
    rcases List.mem_singleton.mp hbmem with rfl
    exact hparts.2.2 a ha last (List.mem_singleton_self _)

lemma foldl_mergeStep_ends {g : ℚ} (l : List (ℚ × ℚ)) :
    ∀ acc, (∀ x ∈ acc, x.1 < x.2) → (∀ x ∈ l, x.1 < x.2) →
      ∀ x ∈ l.foldl (mergeStep g) acc, x.1 < x.2 := by
  induction l with
  | nil => intro acc ha _; simpa using ha
  | cons r rest ih =>
    intro acc ha hl
    rw [List.foldl_cons]
    exact ih _ (mergeStep_ends ha (hl r (List.mem_cons_self _ _)))
      (fun x hx => hl x (List.mem_cons_of_mem _ hx))

lemma foldl_mergeStep_fst {g : ℚ} {Q : ℚ → Prop} (l : List (ℚ × ℚ)) :
    ∀ acc, (∀ x ∈ acc, Q x.1) → (∀ x ∈ l, Q x.1) →
      ∀ x ∈ l.foldl (mergeStep g) acc, Q x.1 := by
  induction l with
  | nil => intro acc ha _; simpa using ha
  | cons r rest ih =>
    intro acc ha hl
    rw [List.foldl_cons]
    exact ih _ (mergeStep_fst ha (hl r (List.mem_cons_self _ _)))
      (fun x hx => hl x (List.mem_cons_of_mem _ hx))

lemma foldl_mergeStep_pairwise {g : ℚ} (hg : 0 ≤ g) (l : List (ℚ × ℚ)) :
    ∀ acc, acc.Pairwise (fun a b => a.2 + g < b.1) → (∀ x ∈ acc, x.1 < x.2) →
      (∀ x ∈ l, x.1 < x.2) →
      (l.foldl (mergeStep g) acc).Pairwise (fun a b => a.2 + g < b.1) := by
  induction l with
  | nil => intro acc hp _ _; simpa using hp
  | cons r rest ih =>
    intro acc hp ha hl
    rw [List.foldl_cons]
    exact ih _ (mergeStep_pairwise hg hp ha (hl r (List.mem_cons_self _ _)))
      (mergeStep_ends ha (hl r (List.mem_cons_self _ _)))
      (fun x hx => hl x (List.mem_cons_of_mem _ hx))

lemma mergeRanges_ends {g : ℚ} {l : List (ℚ × ℚ)} (hl : ∀ x ∈ l, x.1 < x.2) :
    ∀ x ∈ mergeRanges g l, x.1 < x.2 :=
  foldl_mergeStep_ends l [] (by simp) hl

lemma mergeRanges_fst {g : ℚ} {Q : ℚ → Prop} {l : List (ℚ × ℚ)} (hl : ∀ x ∈ l, Q x.1) :
    ∀ x ∈ mergeRanges g l, Q x.1 :=
  foldl_mergeStep_fst l [] (by simp) hl

lemma mergeRanges_pairwise {g : ℚ} {l : List (ℚ × ℚ)} (hg : 0 ≤ g)
    (hl : ∀ x ∈ l, x.1 < x.2) :
    (mergeRanges g l).Pairwise (fun a b => a.2 + g < b.1) :=
  foldl_mergeStep_pairwise hg l [] List.Pairwise.nil (by simp) hl

lemma foldl_mergeStep_of_pairwise {g : ℚ} (l : List (ℚ × ℚ)) :
    ∀ acc, (acc ++ l).Pairwise (fun a b => a.2 + g < b.1) →
      l.foldl (mergeStep g) acc = acc ++ l := by
  induction l with
  | nil => intro acc _; simp
  | cons r rest ih =>
    intro acc hpw
    rw [List.foldl_cons]
    have hstep : mergeStep g acc r = acc ++ [r] := by
      rcases List.eq_nil_or_concat' acc with rfl | ⟨ys, last, rfl⟩
      · simp [mergeStep]
      · have hcond : last.2 + g < r.1 :=
          (List.pairwise_append.mp hpw).2.2 last
            (List.mem_append_right _ (List.mem_singleton_self _))
            r (List.mem_cons_self _ _)
        simp [mergeStep, List.getLast?_concat, hcond]
    rw [hstep, ih (acc ++ [r]) (by simpa [List.append_assoc] using hpw)]
    simp

/-- The merge loop leaves an already-merged list unchanged. -/
lemma mergeRanges_of_pairwise {g : ℚ} {l : List (ℚ × ℚ)}
    (hpw : l.Pairwise (fun a b => a.2 + g < b.1)) :
    mergeRanges g l = l := by
  have h := foldl_mergeStep_of_pairwise (g := g) l [] (by simpa using hpw)
  simpa [mergeRanges] using h

/-! ### Lemmas about the sorting and buffering stages -/

lemma sortRanges_of_pairwise {l : List (ℚ × ℚ)}
    (h : l.Pairwise (fun a b => a.1 ≤ b.1)) : sortRanges l = l :=
  List.mergeSort_of_sorted (h.imp fun hab => decide_eq_true hab)

lemma sortMatches_of_pairwise {ms : List (List Char × List Char)}
    (h : ms.Pairwise (fun a b => hms_to_sec a.1 ≤ hms_to_sec b.1)) : sortMatches ms = ms :=
  List.mergeSort_of_sorted (h.imp fun hab => decide_eq_true hab)

lemma mem_sortRanges {l : List (ℚ × ℚ)} {x : ℚ × ℚ} :
    x ∈ sortRanges l ↔ x ∈ l :=
  List.mem_mergeSort

lemma buildBuffered_cons_pos {b : ℚ} {mt : List Char × List Char}
    {rest : List (List Char × List Char)}
    (hc : max 0 (hms_to_sec mt.1 - b) < hms_to_sec mt.2 + b) :
    buildBuffered b (mt :: rest) =
      (max 0 (hms_to_sec mt.1 - b), hms_to_sec mt.2 + b) :: buildBuffered b rest := by
  have hc2 := sup_lt_iff.mp hc
  simp [buildBuffered, List.filterMap_cons, hc2.1, hc2.2]

lemma buildBuffered_cons_neg {b : ℚ} {mt : List Char × List Char}
    {rest : List (List Char × List Char)}
    (hc : ¬ max 0 (hms_to_sec mt.1 - b) < hms_to_sec mt.2 + b) :
    buildBuffered b (mt :: rest) = buildBuffered b rest := by
  have hc2 : ¬ (0 < hms_to_sec mt.2 + b ∧ hms_to_sec mt.1 - b < hms_to_sec mt.2 + b) := by
    rw [← sup_lt_iff]
    exact hc
  simp [buildBuffered, List.filterMap_cons, hc2]

lemma buildBuffered_eq {b : ℚ} {ms : List (List Char × List Char)} :
    buildBuffered b ms =
      (ms.map fun mt => (max 0 (hms_to_sec mt.1 - b), hms_to_sec mt.2 + b)).filter
        (fun r => decide (r.1 < r.2)) := by
  induction ms with
  | nil => rfl
  | cons mt rest ih =>
    by_cases hc : max 0 (hms_to_sec mt.1 - b) < hms_to_sec mt.2 + b
    · rw [buildBuffered_cons_pos hc, List.map_cons, List.filter_cons,
        if_pos (decide_eq_true hc), ih]
    · rw [buildBuffered_cons_neg hc, List.map_cons, List.filter_cons,
        if_neg (fun h => hc (of_decide_eq_true h)), ih]

lemma buildBuffered_ends {b : ℚ} {ms : List (List Char × List Char)} :
    ∀ r ∈ buildBuffered b ms, r.1 < r.2 := by
  intro r hr
  obtain ⟨mt, _, he⟩ := List.mem_filterMap.mp hr
  by_cases hc : max 0 (hms_to_sec mt.1 - b) < hms_to_sec mt.2 + b
  · simp only [hc, if_pos] at he
    cases Option.some.inj he
    exact hc
  · simp [hc] at he

lemma buildBuffered_fst_nonneg {b : ℚ} {ms : List (List Char × List Char)} :
    ∀ r ∈ buildBuffered b ms, 0 ≤ r.1 := by
  intro r hr
  obtain ⟨mt, _, he⟩ := List.mem_filterMap.mp hr
  by_cases hc : max 0 (hms_to_sec mt.1 - b) < hms_to_sec mt.2 + b
  · simp only [hc, if_pos] at he
    cases Option.some.inj he
    exact le_max_left _ _
  · simp [hc] at he

/-! ### Pipeline-level invariants -/

lemma finalClipRanges_ends (reply : List Char) (b g m : ℚ) :
    ∀ x ∈ finalClipRanges reply b g m, x.1 < x.2 := by
  intro x hx
  have hx2 : x ∈ mergeRanges g (sortRanges (buildBuffered b (sortMatches (findRanges reply)))) :=
    List.mem_of_mem_filter hx
  exact mergeRanges_ends (fun y hy => buildBuffered_ends y (mem_sortRanges.mp hy)) x hx2

lemma finalClipRanges_pairwise (reply : List Char) (b g m : ℚ) (hg : 0 ≤ g) :
    (finalClipRanges reply b g m).Pairwise (fun a c => a.2 + g < c.1) := by
  have hmerged :
      (mergeRanges g (sortRanges (buildBuffered b (sortMatches (findRanges reply))))).Pairwise
        (fun a c => a.2 + g < c.1) :=
    mergeRanges_pairwise hg (fun y hy => buildBuffered_ends y (mem_sortRanges.mp hy))
  exact List.Pairwise.sublist (List.filter_sublist _) hmerged

lemma finalClipRanges_min (reply : List Char) (b g m : ℚ) :
    ∀ x ∈ finalClipRanges reply b g m, m ≤ x.2 - x.1 := by
  intro x hx
  have := List.of_mem_filter hx
  exact of_decide_eq_true this

/-! ### Evaluation helpers for concrete inputs -/

lemma mergeRanges_singleton (g s e : ℚ) : mergeRanges g [(s, e)] = [(s, e)] :=
  mergeRanges_of_pairwise (List.pairwise_singleton _ _)

lemma sortRanges_singleton (s e : ℚ) : sortRanges [(s, e)] = [(s, e)] :=
  sortRanges_of_pairwise (List.pairwise_singleton _ _)

lemma mergeRanges_pair_merge (g s1 e1 s2 e2 : ℚ) (hcond : ¬ e1 + g < s2) :
    mergeRanges g [(s1, e1), (s2, e2)] = [(s1, max e1 e2)] := by
  have h1 : mergeStep g [] ((s1 : ℚ), (e1 : ℚ)) = [(s1, e1)] := by
    simp [mergeStep]
  have h2 : mergeStep g [((s1 : ℚ), (e1 : ℚ))] (s2, e2) = [(s1, max e1 e2)] := by
    simp [mergeStep, hcond]
  simp [mergeRanges, List.foldl, h1, h2]

lemma hms_val_1 : hms_to_sec "00:00:01.000".data = 1 := by
  have hf : hmsFields "00:00:01.000".data =
      some (['0', '0'], ['0', '0'], ['0', '1'], ['0', '0', '0']) := by decide
  rw [hms_to_sec_eq_num 0 0 1 0 hf (by decide) (by decide) (by decide) (by decide)
    (by decide) (by decide) (by decide) (by decide) (by decide) (by decide) (by decide) (by decide)]
  norm_num

lemma hms_val_3 : hms_to_sec "00:00:03.000".data = 3 := by
  have hf : hmsFields "00:00:03.000".data =
      some (['0', '0'], ['0', '0'], ['0', '3'], ['0', '0', '0']) := by decide
  rw [hms_to_sec_eq_num 0 0 3 0 hf (by decide) (by decide) (by decide) (by decide)
    (by decide) (by decide) (by decide) (by decide) (by decide) (by decide) (by decide) (by decide)]
  norm_num

lemma findRanges_t1 : findRanges "00:00:01.000 - 00:00:03.000".data =
    [("00:00:01.000".data, "00:00:03.000".data)] := by decide

/-- Full evaluation of the merge stage on the one-range reply, zero buffer. -/
lemma merged_t1_b0 :
    mergeRanges (1/2)
      (sortRanges (buildBuffered 0 (sortMatches (findRanges "00:00:01.000 - 00:00:03.000".data)))) =
      [(1, 3)] := by
  rw [findRanges_t1, sortMatches_of_pairwise (List.pairwise_singleton _ _)]
  rw [buildBuffered_cons_pos (by rw [hms_val_1, hms_val_3]; norm_num)]
  have hpair : (max 0 (hms_to_sec "00:00:01.000".data - 0),
      hms_to_sec "00:00:03.000".data + 0) = ((1 : ℚ), (3 : ℚ)) := by
    rw [hms_val_1, hms_val_3]
    norm_num
  rw [show buildBuffered (0 : ℚ) [] = [] from rfl, hpair, sortRanges_singleton,
    mergeRanges_singleton]

lemma final_t1_b0 :
    finalClipRanges "00:00:01.000 - 00:00:03.000".data 0 (1/2) 2 = [(1, 3)] := by
  rw [finalClipRanges, rangePipeline, merged_t1_b0, filterRanges, List.filter_cons,
    if_pos (decide_eq_true (by norm_num : ((2 : ℚ) ≤ ((1 : ℚ), (3 : ℚ)).2 - ((1 : ℚ), (3 : ℚ)).1))),
    List.filter_nil]

/-! ### The claims -/

/-- C1: in the merge step, a buffered range (s, e) is appended as a new output
range exactly when the output list is empty or s exceeds the last output end
plus the merge gap; otherwise the last output range's end is extended to the
max of the two ends, its start untouched; the sequence of output starts is
never rewritten, only possibly extended by the new start. -/
theorem merge_step_spec (g : ℚ) (acc : List (ℚ × ℚ)) (r : ℚ × ℚ) :
    ((acc = [] ∨ ∃ last, acc.getLast? = some last ∧ last.2 + g < r.1) →
      mergeStep g acc r = acc ++ [r]) ∧
    (∀ last, acc.getLast? = some last → ¬ last.2 + g < r.1 →
      mergeStep g acc r = acc.dropLast ++ [(last.1, max last.2 r.2)]) ∧
    ((mergeStep g acc r).map Prod.fst = acc.map Prod.fst ++ [r.1] ∨
      (mergeStep g acc r).map Prod.fst = acc.map Prod.fst) := by
  refine ⟨?_, ?_, ?_⟩
  · intro h
    rcases mergeStep_eq g acc r with ⟨ha, heq⟩ | ⟨ys, last, ha, ⟨hcond, heq⟩ | ⟨hcond, heq⟩⟩
    · subst ha
      simpa using heq
    · exact heq
    · subst ha
      rcases h with hnil | ⟨last2, hl2, hc2⟩
      · exact absurd hnil (by simp)
      · rw [List.getLast?_concat] at hl2
        cases Option.some.inj hl2
        exact absurd hc2 hcond
  · intro last hl hcond
    rcases mergeStep_eq g acc r with ⟨ha, heq⟩ | ⟨ys, last2, ha, ⟨hcond2, heq⟩ | ⟨hcond2, heq⟩⟩
    · subst ha
      simp at hl
    · subst ha
      rw [List.getLast?_concat] at hl
      cases Option.some.inj hl
      exact absurd hcond2 hcond
    · subst ha
      rw [List.getLast?_concat] at hl
      cases Option.some.inj hl
      rw [heq, List.dropLast_concat]
  · rcases mergeStep_eq g acc r with ⟨ha, heq⟩ | ⟨ys, last, ha, ⟨hcond, heq⟩ | ⟨hcond, heq⟩⟩
    · subst ha
      left
      rw [heq]
      simp
    · left
      rw [heq]
      simp
    · right
      subst ha
      rw [heq]
      simp

/-- C1 witness: on a nonempty accumulator whose last end plus the gap lies
strictly below the new start, the step appends. -/
theorem merge_step_spec_witness :
    mergeStep (1/2 : ℚ) [((0 : ℚ), (1 : ℚ))] ((2 : ℚ), (3 : ℚ)) = [(0, 1), (2, 3)] :=
  (merge_step_spec (1/2) [(0, 1)] (2, 3)).1 (Or.inr ⟨(0, 1), rfl, by norm_num⟩)

/-- C2: for any reply text and non-negative parameters, the output ranges are
strictly increasing in start, and any two distinct output ranges are separated
by a gap strictly greater than merge_gap. -/
theorem normalize_output_invariants (reply : List Char) (b g m : ℚ)
    (hb : 0 ≤ b) (hg : 0 ≤ g) (hm : 0 ≤ m) :
    (finalClipRanges reply b g m).Pairwise
      (fun x y => x.1 < y.1 ∧ g < y.1 - x.2) := by
  have hpw := finalClipRanges_pairwise reply b g m hg
  have hends := finalClipRanges_ends reply b g m
  refine hpw.imp_of_mem ?_
  intro x y hx hy hr
  have hex : x.1 < x.2 := hends x hx
  exact ⟨by linarith, by linarith⟩

/-- C2 witness. -/
theorem normalize_output_invariants_witness :
    (finalClipRanges "00:00:01.000 - 00:00:03.000".data 0 (1/2) 2).Pairwise
      (fun x y => x.1 < y.1 ∧ (1/2 : ℚ) < y.1 - x.2) :=
  normalize_output_invariants _ 0 (1/2) 2 (by norm_num) (by norm_num) (by norm_num)

/-- C4: the final filter keeps exactly the merged ranges of duration at least
min_duration, in their existing order (a sublist of the merged list), and every
surviving range meets the duration floor. -/
theorem min_duration_filter_spec (reply : List Char) (b g m : ℚ) :
    List.Sublist (finalClipRanges reply b g m)
      (mergeRanges g (sortRanges (buildBuffered b (sortMatches (findRanges reply))))) ∧
    (∀ r, r ∈ finalClipRanges reply b g m ↔
      r ∈ mergeRanges g (sortRanges (buildBuffered b (sortMatches (findRanges reply)))) ∧
        m ≤ r.2 - r.1) ∧
    (∀ r ∈ finalClipRanges reply b g m, m ≤ r.2 - r.1) := by
  refine ⟨List.filter_sublist _, ?_, fun r hr => finalClipRanges_min reply b g m r hr⟩
  intro r
  constructor
  · intro hr
    exact ⟨List.mem_of_mem_filter hr, finalClipRanges_min reply b g m r hr⟩
  · rintro ⟨hmem, hdur⟩
    exact List.mem_filter.mpr ⟨hmem, decide_eq_true hdur⟩

/-- C4 witness: the surviving range of the one-range reply is a member because
it survives the duration floor. -/
theorem min_duration_filter_spec_witness :
    ((1 : ℚ), (3 : ℚ)) ∈ finalClipRanges "00:00:01.000 - 00:00:03.000".data 0 (1/2) 2 :=
  ((min_duration_filter_spec "00:00:01.000 - 00:00:03.000".data 0 (1/2) 2).2.1 (1, 3)).mpr
    ⟨by rw [merged_t1_b0]; exact List.mem_singleton_self _, by norm_num⟩

/-! ### Concrete evaluation of the two-range scenario and the negative-buffer run -/

lemma hms_val_8 : hms_to_sec "00:00:08.000".data = 8 := by
  have hf : hmsFields "00:00:08.000".data =
      some (['0', '0'], ['0', '0'], ['0', '8'], ['0', '0', '0']) := by decide
  rw [hms_to_sec_eq_num 0 0 8 0 hf (by decide) (by decide) (by decide) (by decide)
    (by decide) (by decide) (by decide) (by decide) (by decide) (by decide) (by decide) (by decide)]
  norm_num

lemma hms_val_82 : hms_to_sec "00:00:08.200".data = 41/5 := by
  have hf : hmsFields "00:00:08.200".data =
      some (['0', '0'], ['0', '0'], ['0', '8'], ['2', '0', '0']) := by decide
  rw [hms_to_sec_eq_num 0 0 8 200 hf (by decide) (by decide) (by decide) (by decide)
    (by decide) (by decide) (by decide) (by decide) (by decide) (by decide) (by decide) (by decide)]
  norm_num

lemma hms_val_12 : hms_to_sec "00:00:12.000".data = 12 := by
  have hf : hmsFields "00:00:12.000".data =
      some (['0', '0'], ['0', '0'], ['1', '2'], ['0', '0', '0']) := by decide
  rw [hms_to_sec_eq_num 0 0 12 0 hf (by decide) (by decide) (by decide) (by decide)
    (by decide) (by decide) (by decide) (by decide) (by decide) (by decide) (by decide) (by decide)]
  norm_num

lemma hms_val_02 : hms_to_sec "00:00:00.200".data = 1/5 := by
  have hf : hmsFields "00:00:00.200".data =
      some (['0', '0'], ['0', '0'], ['0', '0'], ['2', '0', '0']) := by decide
  rw [hms_to_sec_eq_num 0 0 0 200 hf (by decide) (by decide) (by decide) (by decide)
    (by decide) (by decide) (by decide) (by decide) (by decide) (by decide) (by decide) (by decide)]
  norm_num

lemma findRanges_t3 :
    findRanges "00:00:03.000 - 00:00:08.000\n00:00:08.200 - 00:00:12.000".data =
      [("00:00:03.000".data, "00:00:08.000".data),
       ("00:00:08.200".data, "00:00:12.000".data)] := by decide

lemma buffered_t3 :
    buildBuffered (1/2)
      (sortMatches (findRanges "00:00:03.000 - 00:00:08.000\n00:00:08.200 - 00:00:12.000".data)) =
      [(5/2, 17/2), (77/10, 25/2)] := by
  rw [findRanges_t3]
  rw [sortMatches_of_pairwise]
  · rw [buildBuffered_cons_pos (by rw [hms_val_3, hms_val_8]; norm_num)]
    rw [buildBuffered_cons_pos (by rw [hms_val_82, hms_val_12]; norm_num)]
    rw [show buildBuffered ((1 : ℚ)/2) [] = [] from rfl]
    have hp1 : (max 0 (hms_to_sec "00:00:03.000".data - 1/2),
        hms_to_sec "00:00:08.000".data + 1/2) = ((5 : ℚ)/2, (17 : ℚ)/2) := by
      rw [hms_val_3, hms_val_8]
      norm_num
    have hp2 : (max 0 (hms_to_sec "00:00:08.200".data - 1/2),
        hms_to_sec "00:00:12.000".data + 1/2) = ((77 : ℚ)/10, (25 : ℚ)/2) := by
      rw [hms_val_82, hms_val_12]
      norm_num
    rw [hp1, hp2]
  · refine List.Pairwise.cons ?_ (List.pairwise_singleton _ _)
    intro y hy
    rcases List.mem_singleton.mp hy with rfl
    rw [hms_val_3, hms_val_82]
    norm_num

lemma final_t3 :
    finalClipRanges "00:00:03.000 - 00:00:08.000\n00:00:08.200 - 00:00:12.000".data
      (1/2) (1/2) 2 = [(5/2, 25/2)] := by
  rw [finalClipRanges, rangePipeline, buffered_t3]
  rw [sortRanges_of_pairwise]
  · rw [mergeRanges_pair_merge _ _ _ _ _ (by norm_num)]
    have hmax : max ((17 : ℚ)/2) ((25 : ℚ)/2) = 25/2 := by norm_num
    rw [hmax, filterRanges, List.filter_cons,
      if_pos (decide_eq_true
        (by norm_num : ((2 : ℚ) ≤ ((5 : ℚ)/2, (25 : ℚ)/2).2 - ((5 : ℚ)/2, (25 : ℚ)/2).1))),
      List.filter_nil]
  · refine List.Pairwise.cons ?_ (List.pairwise_singleton _ _)
    intro y hy
    rcases List.mem_singleton.mp hy with rfl
    norm_num

/-- C3: the two ranges of the sample reply buffer to [2.5, 8.5] and
[7.7, 12.5], which overlap and merge, and the pipeline returns exactly one
range (2.5, 12.5). -/
theorem concrete_two_range_merge :
    buildBuffered (1/2)
      (sortMatches (findRanges "00:00:03.000 - 00:00:08.000\n00:00:08.200 - 00:00:12.000".data)) =
      [(5/2, 17/2), (77/10, 25/2)] ∧
    finalClipRanges "00:00:03.000 - 00:00:08.000\n00:00:08.200 - 00:00:12.000".data
      (1/2) (1/2) 2 = [(5/2, 25/2)] :=
  ⟨buffered_t3, final_t3⟩

/-- C5: buffering maps each parsed pair to (max 0 (start - buffer),
end + buffer), dropping it exactly when the buffered end does not exceed the
buffered start; the raw start 00:00:00.200 with buffer 0.5 clamps to 0 rather
than -0.3; and no output range of the pipeline has a negative start. -/
theorem buffering_spec :
    (∀ (b : ℚ) (ms : List (List Char × List Char)),
      buildBuffered b ms =
        (ms.map fun mt => (max 0 (hms_to_sec mt.1 - b), hms_to_sec mt.2 + b)).filter
          (fun r => decide (r.1 < r.2))) ∧
    hms_to_sec "00:00:00.200".data - (1/2 : ℚ) = -(3/10) ∧
    max 0 (hms_to_sec "00:00:00.200".data - (1/2 : ℚ)) = 0 ∧
    (∀ (reply : List Char) (b g m : ℚ), ∀ r ∈ finalClipRanges reply b g m, 0 ≤ r.1) := by
  refine ⟨fun b ms => buildBuffered_eq, by rw [hms_val_02]; norm_num,
    by rw [hms_val_02]; norm_num, ?_⟩
  intro reply b g m r hr
  have hmem : r ∈ mergeRanges g (sortRanges (buildBuffered b (sortMatches (findRanges reply)))) :=
    List.mem_of_mem_filter hr
  exact mergeRanges_fst (fun y hy => buildBuffered_fst_nonneg y (mem_sortRanges.mp hy)) r hmem

/-- C5 witness: the start of the surviving range of the one-range reply is
non-negative. -/
theorem buffering_spec_witness :
    (0 : ℚ) ≤ ((1 : ℚ), (3 : ℚ)).1 :=
  buffering_spec.2.2.2 "00:00:01.000 - 00:00:03.000".data 0 (1/2) 2 (1, 3)
    (by rw [final_t1_b0]; exact List.mem_singleton_self _)

lemma final_t1_bneg :
    finalClipRanges "00:00:01.000 - 00:00:03.000".data (-(1/2)) (1/2) 2 = [] := by
  rw [finalClipRanges, rangePipeline, findRanges_t1,
    sortMatches_of_pairwise (List.pairwise_singleton _ _)]
  rw [buildBuffered_cons_pos (by rw [hms_val_1, hms_val_3]; norm_num)]
  have hpair : (max 0 (hms_to_sec "00:00:01.000".data - -(1/2)),
      hms_to_sec "00:00:03.000".data + -(1/2)) = ((3 : ℚ)/2, (5 : ℚ)/2) := by
    rw [hms_val_1, hms_val_3]
    norm_num
  rw [show buildBuffered (-(1/2) : ℚ) [] = [] from rfl, hpair, sortRanges_singleton,
    mergeRanges_singleton, filterRanges, List.filter_cons,
    if_neg (fun h => absurd (of_decide_eq_true h) (by norm_num)), List.filter_nil]

/-- C6 counterexample: with buffer_seconds = -0.5 the pipeline output differs
from the output with buffer 0 on a concrete reply, so the core does not clamp a
negative buffer to 0. -/
theorem negative_buffer_counterexample :
    finalClipRanges "00:00:01.000 - 00:00:03.000".data (-(1/2)) (1/2) 2 ≠
      finalClipRanges "00:00:01.000 - 00:00:03.000".data 0 (1/2) 2 := by
  rw [final_t1_bneg, final_t1_b0]
  simp

/-- C6 amended: the core clamps neither parameter.  A negative
min_duration_seconds happens to yield the same output as 0, because every
merged range already has positive duration; a negative buffer_seconds is
propagated into the range arithmetic and can change the output, as the
concrete run shows. -/
theorem negative_params_behavior :
    (∀ (reply : List Char) (b g m : ℚ), m ≤ 0 →
      finalClipRanges reply b g m = finalClipRanges reply b g 0) ∧
    finalClipRanges "00:00:01.000 - 00:00:03.000".data (-(1/2)) (1/2) 2 = [] ∧
    finalClipRanges "00:00:01.000 - 00:00:03.000".data 0 (1/2) 2 = [(1, 3)] := by
  refine ⟨?_, final_t1_bneg, final_t1_b0⟩
  intro reply b g m hm
  have hends : ∀ r ∈ mergeRanges g (sortRanges (buildBuffered b (sortMatches (findRanges reply)))),
      r.1 < r.2 :=
    mergeRanges_ends (fun y hy => buildBuffered_ends y (mem_sortRanges.mp hy))
  unfold finalClipRanges rangePipeline filterRanges
  rw [List.filter_eq_self.mpr
      (fun r hr => decide_eq_true (le_trans hm (le_of_lt (sub_pos.mpr (hends r hr))))),
    List.filter_eq_self.mpr
      (fun r hr => decide_eq_true (le_of_lt (sub_pos.mpr (hends r hr))))]

/-- C6 witness: a negative minimum duration leaves the output unchanged. -/
theorem negative_params_behavior_witness :
    finalClipRanges "00:00:01.000 - 00:00:03.000".data 0 (1/2) (-(1)) =
      finalClipRanges "00:00:01.000 - 00:00:03.000".data 0 (1/2) 0 :=
  negative_params_behavior.1 _ 0 (1/2) (-(1)) (by norm_num)

/-- C7: the core is a total function whose two empty outcomes are distinct
constructors: no parseable range at all reports noMatchesFound, matches that
all die in merge+filter report emptyAfterNormalization, and the success
outcome carries a nonempty clip list. -/
theorem outcome_spec (reply : List Char) (b g m : ℚ) :
    (process_with_llm reply b g m = ProcessOutcome.noMatchesFound ↔ findRanges reply = []) ∧
    (process_with_llm reply b g m = ProcessOutcome.emptyAfterNormalization ↔
      findRanges reply ≠ [] ∧ finalClipRanges reply b g m = []) ∧
    ProcessOutcome.noMatchesFound ≠ ProcessOutcome.emptyAfterNormalization ∧
    (∀ rs, process_with_llm reply b g m = ProcessOutcome.clips rs →
      rs = finalClipRanges reply b g m ∧ rs ≠ []) := by
  unfold process_with_llm
  by_cases h1 : findRanges reply = []
  · simp [h1]
  · by_cases h2 : finalClipRanges reply b g m = []
    · simp [h1, h2]
    · simp [h1, h2]

/-- C7 witness: a reply without any timestamp range reports noMatchesFound. -/
theorem outcome_spec_witness :
    process_with_llm "no timestamps here".data 0 (1/2) 2 = ProcessOutcome.noMatchesFound :=
  (outcome_spec "no timestamps here".data 0 (1/2) 2).1.mpr (by decide)

/-- C9: the sort / merge / filter pipeline is a fixed point on its own
outputs: re-normalizing an output of the pipeline with the same gap and
minimum duration returns it unchanged. -/
theorem normalize_fixed_point (reply : List Char) (b g m : ℚ) (hg : 0 ≤ g) :
    rangePipeline g m (finalClipRanges reply b g m) = finalClipRanges reply b g m := by
  have hpw := finalClipRanges_pairwise reply b g m hg
  have hends := finalClipRanges_ends reply b g m
  have hmin := finalClipRanges_min reply b g m
  have hsorted : (finalClipRanges reply b g m).Pairwise (fun a c => a.1 ≤ c.1) := by
    refine hpw.imp_of_mem ?_
    intro x y hx hy hr
    have := hends x hx
    linarith
  rw [rangePipeline, sortRanges_of_pairwise hsorted, mergeRanges_of_pairwise hpw]
  unfold filterRanges
  exact List.filter_eq_self.mpr (fun r hr => decide_eq_true (hmin r hr))

/-- C9 witness. -/
theorem normalize_fixed_point_witness :
    rangePipeline (1/2) 2 (finalClipRanges "00:00:01.000 - 00:00:03.000".data 0 (1/2) 2) =
      finalClipRanges "00:00:01.000 - 00:00:03.000".data 0 (1/2) 2 :=
  normalize_fixed_point _ 0 (1/2) 2 (by norm_num)

/-- C8: the conversion returns 0 whenever its try-body fails, and on every
well-formed timestamp (digit fields in the HH:MM:SS.mmm shape, or HH:MM:SS
without a fractional part) it returns hours*3600 + minutes*60 + seconds +
milliseconds/1000, milliseconds defaulting to 0 when absent. -/
theorem hms_conversion_spec :
    (∀ t : List Char, hmsToSecE t = none → hms_to_sec t = 0) ∧
    (∀ h1 h2 m1 m2 s1 s2 f1 f2 f3 : Char,
      h1.isDigit = true → h2.isDigit = true → m1.isDigit = true → m2.isDigit = true →
      s1.isDigit = true → s2.isDigit = true → f1.isDigit = true → f2.isDigit = true →
      f3.isDigit = true →
      hms_to_sec [h1, h2, ':', m1, m2, ':', s1, s2, '.', f1, f2, f3] =
        ((10 * (h1.toNat - 48) + (h2.toNat - 48) : ℕ) : ℚ) * 3600 +
        ((10 * (m1.toNat - 48) + (m2.toNat - 48) : ℕ) : ℚ) * 60 +
        ((10 * (s1.toNat - 48) + (s2.toNat - 48) : ℕ) : ℚ) +
        ((100 * (f1.toNat - 48) + 10 * (f2.toNat - 48) + (f3.toNat - 48) : ℕ) : ℚ) / 1000) ∧
    (∀ h1 h2 m1 m2 s1 s2 : Char,
      h1.isDigit = true → h2.isDigit = true → m1.isDigit = true → m2.isDigit = true →
      s1.isDigit = true → s2.isDigit = true →
      hms_to_sec [h1, h2, ':', m1, m2, ':', s1, s2] =
        ((10 * (h1.toNat - 48) + (h2.toNat - 48) : ℕ) : ℚ) * 3600 +
        ((10 * (m1.toNat - 48) + (m2.toNat - 48) : ℕ) : ℚ) * 60 +
        ((10 * (s1.toNat - 48) + (s2.toNat - 48) : ℕ) : ℚ)) := by
  refine ⟨?_, ?_, ?_⟩
  · intro t h
    simp [hms_to_sec, h]
  · intro h1 h2 m1 m2 s1 s2 f1 f2 f3 d1 d2 d3 d4 d5 d6 d7 d8 d9
    have hf := hmsFields_pattern h1 h2 m1 m2 s1 s2 f1 f2 f3 d1 d2 d3 d4 d5 d6 d7 d8 d9
    rw [hms_to_sec_eq_num (10 * (h1.toNat - 48) + (h2.toNat - 48))
      (10 * (m1.toNat - 48) + (m2.toNat - 48)) (10 * (s1.toNat - 48) + (s2.toNat - 48))
      (100 * (f1.toNat - 48) + 10 * (f2.toNat - 48) + (f3.toNat - 48)) hf
      (mem_pair_digits d1 d2) (mem_pair_digits d3 d4) (mem_pair_digits d5 d6)
      (mem_triple_digits d7 d8 d9)
      (by simp) (by simp) (by simp) (by simp)
      (digitsValN_pair h1 h2) (digitsValN_pair m1 m2) (digitsValN_pair s1 s2)
      (digitsValN_triple f1 f2 f3)]
  · intro h1 h2 m1 m2 s1 s2 d1 d2 d3 d4 d5 d6
    have hf := hmsFields_no_dot h1 h2 m1 m2 s1 s2 d1 d2 d3 d4 d5 d6
    rw [hms_to_sec_eq_num (10 * (h1.toNat - 48) + (h2.toNat - 48))
      (10 * (m1.toNat - 48) + (m2.toNat - 48)) (10 * (s1.toNat - 48) + (s2.toNat - 48)) 0 hf
      (mem_pair_digits d1 d2) (mem_pair_digits d3 d4) (mem_pair_digits d5 d6)
      (mem_triple_digits (by decide) (by decide) (by decide))
      (by simp) (by simp) (by simp) (by simp)
      (digitsValN_pair h1 h2) (digitsValN_pair m1 m2) (digitsValN_pair s1 s2) (by decide)]
    norm_num

/-- C8 witness: the formula evaluated on 01:02:03.456. -/
theorem hms_conversion_spec_witness :
    hms_to_sec ['0', '1', ':', '0', '2', ':', '0', '3', '.', '4', '5', '6'] =
      3723 + 456/1000 := by
  have h := hms_conversion_spec.2.1 '0' '1' '0' '2' '0' '3' '4' '5' '6'
    (by decide) (by decide) (by decide) (by decide) (by decide) (by decide)
    (by decide) (by decide) (by decide)
  rw [h]
  norm_num [(show ('0' : Char).toNat = 48 by decide), (show ('1' : Char).toNat = 49 by decide),
    (show ('2' : Char).toNat = 50 by decide), (show ('3' : Char).toNat = 51 by decide),
    (show ('4' : Char).toNat = 52 by decide), (show ('5' : Char).toNat = 53 by decide),
    (show ('6' : Char).toNat = 54 by decide)]

/-- C10: the lexical pattern accepts any digit pair in each field, with no
range validation: the timestamp matcher accepts arbitrary digit characters,
00:99:00.000 converts to the purely arithmetic 5940.0, and the full range
pattern matches a reply built from such out-of-range timestamps. -/
theorem no_range_validation :
    (∀ h1 h2 m1 m2 s1 s2 f1 f2 f3 : Char,
      h1.isDigit = true → h2.isDigit = true → m1.isDigit = true → m2.isDigit = true →
      s1.isDigit = true → s2.isDigit = true → f1.isDigit = true → f2.isDigit = true →
      f3.isDigit = true →
      matchTs [h1, h2, ':', m1, m2, ':', s1, s2, '.', f1, f2, f3] =
        some ([h1, h2, ':', m1, m2, ':', s1, s2, '.', f1, f2, f3], [])) ∧
    hms_to_sec "00:99:00.000".data = 5940 ∧
    findRanges "00:99:00.000 - 00:99:30.000".data =
      [("00:99:00.000".data, "00:99:30.000".data)] := by
  refine ⟨?_, ?_, by decide⟩
  · intro h1 h2 m1 m2 s1 s2 f1 f2 f3 d1 d2 d3 d4 d5 d6 d7 d8 d9
    simp [matchTs, d1, d2, d3, d4, d5, d6, d7, d8, d9]
  · have hf : hmsFields "00:99:00.000".data =
        some (['0', '0'], ['9', '9'], ['0', '0'], ['0', '0', '0']) := by decide
    rw [hms_to_sec_eq_num 0 99 0 0 hf (by decide) (by decide) (by decide) (by decide)
      (by decide) (by decide) (by decide) (by decide) (by decide) (by decide) (by decide)
      (by decide)]
    norm_num

/-- C10 witness: the matcher accepts the all-nines timestamp. -/
theorem no_range_validation_witness :
    matchTs ['9', '9', ':', '9', '9', ':', '9', '9', '.', '9', '9', '9'] =
      some (['9', '9', ':', '9', '9', ':', '9', '9', '.', '9', '9', '9'], []) :=
  no_range_validation.1 '9' '9' '9' '9' '9' '9' '9' '9' '9'
    (by decide) (by decide) (by decide) (by decide) (by decide) (by decide)
    (by decide) (by decide) (by decide)

end Clipper
